import Mathlib

/-!
Shallow embedding of the parallel matrix-multiply library (`src/vector.rs`,
`src/matrix.rs`) of the `02-concurrency` repository.

Scalars are modelled as `Int` (the code is generic over `T : Copy + Default +
Add + AddAssign + Mul`; the tests use machine integers and `Int.default = 0`
matches `T::default()` for them).  Rust panics (out-of-bounds slicing or
indexing) are modelled by `Option.none`; fallible `Result` values by `Except`.

Concurrency is modelled sequentially: each of the `NUM_THREADS` workers owns
the subsequence of tasks whose index is congruent to its id modulo
`NUM_THREADS`, and processes them in submission order.  A worker that hits a
`dot_product` error terminates (the Rust worker loop propagates the error with
`?`), so neither the failing task nor any later task routed to that worker
ever receives a reply; the scheduler then sees the reply channel closed.  A
task whose reply never arrives is modelled as a `none` entry in the reply
list; the collector (`collect`) fails with `channelClosed` on the first such
entry, exactly as `rx.recv()?` does.
-/

namespace Conc

/-- Error taxonomy of `dot_product` (`vector.rs`): the only failure is a
length mismatch between the two operand vectors. -/
inductive VecErr where
  | lengthMismatch
deriving DecidableEq, Repr

/-- Error taxonomy of `multiply` (`matrix.rs`): the synchronous shape check,
and a closed reply channel detected by `rx.recv()?`. -/
inductive MErr where
  | shapeMismatch
  | channelClosed
deriving DecidableEq, Repr

/-- `dot_product` from `vector.rs`: fails when the lengths differ, otherwise
sums `a[i] * b[i]` left to right starting from `T::default()` (here `0`). -/
def dot_product (a b : List Int) : Except VecErr Int :=
  if a.length ≠ b.length then
    .error .lengthMismatch
  else
    .ok ((List.range a.length).foldl (fun sum i => sum + a.getD i 0 * b.getD i 0) 0)

/-- The `Matrix<T>` struct from `matrix.rs`: row-major flat data plus the row
and column counts.  No invariant is enforced by the type, just as in the
source. -/
structure Matrix where
  data : List Int
  row : Nat
  col : Nat
deriving DecidableEq, Repr

namespace Matrix

/-- `Matrix::new`: stores the three fields verbatim, with no validation. -/
def new (data : List Int) (row col : Nat) : Matrix :=
  { data := data, row := row, col := col }

end Matrix

/-- `MsgInput<T>` from `matrix.rs`: one sub-task, carrying the output cell
index, the row of `a` and the column of `b` it must multiply. -/
structure MsgInput where
  idx : Nat
  row : List Int
  col : List Int
deriving DecidableEq, Repr

/-- `NUM_THREADS` constant from `matrix.rs`. -/
def NUM_THREADS : Nat := 4

/-- Rust slice `l[s..e]`, which panics (here: `none`) unless `s ≤ e ≤ l.length`. -/
def sliceRange (l : List Int) (s e : Nat) : Option (List Int) :=
  if s ≤ e ∧ e ≤ l.length then some ((l.drop s).take (e - s)) else none

/-- Rust slice `l[s..]`, which panics (here: `none`) unless `s ≤ l.length`. -/
def sliceFrom (l : List Int) (s : Nat) : Option (List Int) :=
  if s ≤ l.length then some (l.drop s) else none

/-- Iterator for Rust `step_by k`: `skip` elements are still to be skipped
before the next kept element; a kept element resets the skip count to
`k - 1`. -/
def stepByAux (k : Nat) : List Int → Nat → List Int
  | [], _ => []
  | x :: xs, 0 => x :: stepByAux k xs (k - 1)
  | _ :: xs, skip + 1 => stepByAux k xs skip

/-- Rust `Iterator::step_by k` on a list (first element kept, then every
`k`-th).  The source only calls it with `k = b.col ≥ 1`. -/
def stepBy (k : Nat) (l : List Int) : List Int :=
  stepByAux k l 0

/-- The row vector of task `(i, j)`: `&a.data[i * a.col..(i + 1) * a.col]`. -/
def rowSlice (a : Matrix) (i : Nat) : Option (List Int) :=
  sliceRange a.data (i * a.col) ((i + 1) * a.col)

/-- The column vector of task `(i, j)`:
`b.data[j..].iter().step_by(b.col).copied().collect()`. -/
def colSlice (b : Matrix) (j : Nat) : Option (List Int) :=
  (sliceFrom b.data j).map (stepBy b.col)

/-- Builds the task for the output cell `(i, j)`: index `i * b.col + j`, the
`i`-th row of `a` and the `j`-th column of `b`.  `none` models the panic when
a slice bound is out of range. -/
def mkTask (a b : Matrix) (i j : Nat) : Option MsgInput := do
  let row ← rowSlice a i
  let col ← colSlice b j
  pure { idx := i * b.col + j, row := row, col := col }

/-- The row-major list of cell coordinates `(i, j)` the scheduler iterates
over: `for i in 0..a.row { for j in 0..b.col { ... } }`. -/
def cellPairs (r c : Nat) : List (Nat × Nat) :=
  (List.range r).flatMap (fun i => (List.range c).map (fun j => (i, j)))

/-- Builds the tasks for a list of cells, stopping at the first panic, in the
submission order of the scheduler loop. -/
def tasksAux (a b : Matrix) : List (Nat × Nat) → Option (List MsgInput)
  | [] => some []
  | p :: ps => do
    let t ← mkTask a b p.1 p.2
    let ts ← tasksAux a b ps
    pure (t :: ts)

/-- All tasks of `multiply a b` in submission order. -/
def tasks (a b : Matrix) : Option (List MsgInput) :=
  tasksAux a b (cellPairs a.row b.col)

/-- One reply slot per task, in submission order.  `some (idx, v)` is the
`MsgOutput` sent back on the task's oneshot channel; `none` means no reply
ever arrives: the task's worker already terminated (its `dot_product` call on
an earlier task failed, so the `?` in the worker loop ended the thread — a
later send to it fails and is only logged), or the task's own `dot_product`
fails and the worker dies before sending.  `dead` is the set of worker ids
that have terminated. -/
def runWorkers (n : Nat) : List MsgInput → List Nat → List (Option (Nat × Int))
  | [], _ => []
  | t :: ts, dead =>
    if t.idx % n ∈ dead then
      none :: runWorkers n ts dead
    else
      match dot_product t.row t.col with
      | .ok v => some (t.idx, v) :: runWorkers n ts dead
      | .error _ => none :: runWorkers n ts (t.idx % n :: dead)

/-- The collection loop: `for rx in receivers { let output = rx.recv()?;
data[output.idx] = output.value; }`.  A missing reply makes `recv` fail with
a closed channel, aborting the whole call. -/
def collect : List (Option (Nat × Int)) → List Int → Except MErr (List Int)
  | [], data => .ok data
  | none :: _, _ => .error .channelClosed
  | some (idx, v) :: rest, data => collect rest (data.set idx v)

/-- `multiply` from `matrix.rs`, parameterised by the worker count `n`
(`NUM_THREADS` in the source): shape check, task construction, worker
execution, reply collection into a `T::default()`-filled buffer of length
`matrix_len = a.row * b.col` (the source's locals are inlined), assembly of
the result matrix.  The outer `Option` models panics during slicing. -/
def multiplyN (a b : Matrix) (n : Nat) : Option (Except MErr Matrix) :=
  if a.col ≠ b.row then
    some (.error .shapeMismatch)
  else
    match tasks a b with
    | none => none
    | some ts =>
      some ((collect (runWorkers n ts []) (List.replicate (a.row * b.col) (0 : Int))).map
        (fun d => { data := d, row := a.row, col := b.col }))

/-- `multiply(a, b)` as in the source, with `NUM_THREADS = 4` workers. -/
def multiply (a b : Matrix) : Option (Except MErr Matrix) :=
  multiplyN a b NUM_THREADS

/-- The observable write operations of one `multiply` call: the reply slots
in submission order, each carrying the `(index, value)` pair written into the
output buffer (or `none` when the reply never arrives). -/
def writeOps (a b : Matrix) (n : Nat) : Option (List (Option (Nat × Int))) :=
  (tasks a b).map (fun ts => runWorkers n ts [])

/-- The `Mul` operator implementation: `multiply(&self, &rhs).expect(...)`.
`expect` turns an `Err` into a panic, which the model renders as `none`. -/
def mulOp (a b : Matrix) : Option Matrix :=
  match multiply a b with
  | some (.ok m) => some m
  | some (.error _) => none
  | none => none

/-- Reference entry `(i, j)` of the mathematical product, written from the
specification as a plain fold over the inner dimension `a.col`:
`Σ_t a[i][t] * b[t][j]`. -/
def refEntry (a b : Matrix) (i j : Nat) : Int :=
  (List.range a.col).foldl
    (fun sum t => sum + a.data.getD (i * a.col + t) 0 * b.data.getD (t * b.col + j) 0) 0

/-- The value a worker computes for a task (its `dot_product` result when it
succeeds, `0` otherwise; only used on tasks whose dot product succeeds). -/
def dotVal (t : MsgInput) : Int :=
  match dot_product t.row t.col with
  | .ok v => v
  | .error _ => 0

/-- The list content of `rowSlice a i` when the slice is in range. -/
def rowList (a : Matrix) (i : Nat) : List Int :=
  (a.data.drop (i * a.col)).take a.col

/-- The list content of `colSlice b j` when the slice is in range. -/
def colList (b : Matrix) (j : Nat) : List Int :=
  stepBy b.col (b.data.drop j)

/-- The task the scheduler builds for the cell `p = (i, j)` when no slice
panics. -/
def taskOf (a b : Matrix) (p : Nat × Nat) : MsgInput :=
  { idx := p.1 * b.col + p.2, row := rowList a p.1, col := colList b p.2 }

/-- Body of the `Display` implementation of `matrix.rs`: the two nested loops
writing `self.data[i * self.col + j]` in `Debug` form (decimal for integers),
a space after every element but the last of a row, and `, ` after every row
but the last.  Out-of-range indexing (the Rust panic) yields `none`. -/
def displayBody (m : Matrix) : Option String :=
  (List.range m.row).foldlM
    (fun acc i => do
      let acc2 ← (List.range m.col).foldlM
        (fun acc2 j => do
          let x ← m.data[i * m.col + j]?
          pure (acc2 ++ toString x ++ if j ≠ m.col - 1 then " " else "")) acc
      pure (acc2 ++ if i ≠ m.row - 1 then ", " else "")) ""

/-- The full `Display` rendering: the body wrapped in braces. -/
def displayM (m : Matrix) : Option String :=
  (displayBody m).map (fun s => "\x7b" ++ s ++ "\x7d")

/-- The `Debug` implementation: `Matrix(row=<R>, col=<C>, <Display>)`. -/
def debugM (m : Matrix) : Option String :=
  (displayM m).map
    (fun s => "Matrix(row=" ++ toString m.row ++ ", col=" ++ toString m.col ++ ", " ++ s ++ ")")

/-- Modelled from the spec: joining a list of fragments with a separator, no
leading or trailing separator (the "joined by" phrasing of the Display
format). -/
def joinSep (sep : String) : List String → String
  | [] => ""
  | [x] => x
  | x :: y :: xs => x ++ sep ++ joinSep sep (y :: xs)

/-- Modelled from the spec: row `i` rendered as its elements joined by single
spaces. -/
def specRowStr (m : Matrix) (i : Nat) : String :=
  joinSep " " ((List.range m.col).map (fun j => toString (m.data.getD (i * m.col + j) 0)))

/-- Modelled from the spec: `{` + rows joined by `, ` + `}`, each row its
space-joined elements. -/
def specDisplay (m : Matrix) : String :=
  "\x7b" ++ joinSep ", " ((List.range m.row).map (specRowStr m)) ++ "\x7d"

/-- Modelled from the spec: `Matrix(row=<R>, col=<C>, <Display output>)`. -/
def specDebug (m : Matrix) : String :=
  "Matrix(row=" ++ toString m.row ++ ", col=" ++ toString m.col ++ ", " ++ specDisplay m ++ ")"

/-! ### Supporting lemmas -/

theorem getD_set_ne {l : List Int} {i j : Nat} {v : Int} (h : i ≠ j) :
    (l.set i v).getD j 0 = l.getD j 0 := by
  simp [List.getD_eq_getElem?_getD, List.getElem?_set_ne h]

theorem getD_set_self {l : List Int} {i : Nat} {v : Int} (h : i < l.length) :
    (l.set i v).getD i 0 = v := by
  simp [List.getD_eq_getElem?_getD, List.getElem?_set_self h]

theorem getD_drop (l : List Int) (n m : Nat) :
    (l.drop n).getD m 0 = l.getD (n + m) 0 := by
  simp [List.getD_eq_getElem?_getD, List.getElem?_drop]

theorem foldl_set_length (ps : List (Nat × Int)) (d : List Int) :
    (ps.foldl (fun acc p => acc.set p.1 p.2) d).length = d.length := by
  induction ps generalizing d with
  | nil => rfl
  | cons p ps ih => simp [List.foldl_cons, ih, List.length_set]

theorem foldl_set_getD_not_mem {ps : List (Nat × Int)} {k : Nat}
    (h : k ∉ ps.map Prod.fst) (d : List Int) :
    (ps.foldl (fun acc p => acc.set p.1 p.2) d).getD k 0 = d.getD k 0 := by
  induction ps generalizing d with
  | nil => rfl
  | cons p ps ih =>
    simp only [List.map_cons, List.mem_cons, not_or] at h
    simp only [List.foldl_cons]
    rw [ih h.2, getD_set_ne (fun hh => h.1 hh.symm)]

theorem foldl_set_getD_mem {ps : List (Nat × Int)} {k : Nat} {v : Int}
    (hmem : (k, v) ∈ ps) (hnd : (ps.map Prod.fst).Nodup) {d : List Int}
    (hk : k < d.length) :
    (ps.foldl (fun acc p => acc.set p.1 p.2) d).getD k 0 = v := by
  induction ps generalizing d with
  | nil => cases hmem
  | cons p ps ih =>
    simp only [List.map_cons, List.nodup_cons] at hnd
    simp only [List.foldl_cons]
    rcases List.mem_cons.mp hmem with h | h
    · rw [← h] at hnd ⊢
      rw [foldl_set_getD_not_mem hnd.1, getD_set_self hk]
    · exact ih h hnd.2 (by simpa [List.length_set] using hk)

theorem collect_map_some (ps : List (Nat × Int)) (d : List Int) :
    collect (ps.map some) d = .ok (ps.foldl (fun acc p => acc.set p.1 p.2) d) := by
  induction ps generalizing d with
  | nil => rfl
  | cons p ps ih =>
    obtain ⟨i, v⟩ := p
    simp [collect, List.foldl_cons, ih]

theorem collect_mem_none {rs : List (Option (Nat × Int))} (h : none ∈ rs) (d : List Int) :
    collect rs d = .error .channelClosed := by
  induction rs generalizing d with
  | nil => cases h
  | cons r rs ih =>
    cases r with
    | none => rfl
    | some p =>
      obtain ⟨i, v⟩ := p
      have hmem : none ∈ rs := by
        rcases List.mem_cons.mp h with h1 | h1
        · cases h1
        · exact h1
      simpa [collect] using ih hmem (d.set i v)

theorem collect_ok_all_some {rs : List (Option (Nat × Int))} {d res : List Int}
    (h : collect rs d = .ok res) : ∀ r ∈ rs, r.isSome := by
  induction rs generalizing d with
  | nil => intro r hr; cases hr
  | cons r rs ih =>
    cases r with
    | none => simp [collect] at h
    | some p =>
      obtain ⟨i, v⟩ := p
      intro r hr
      rcases List.mem_cons.mp hr with h1 | h1
      · rw [h1]; rfl
      · exact ih (by simpa [collect] using h) r h1

theorem runWorkers_length (n : Nat) (ts : List MsgInput) (dead : List Nat) :
    (runWorkers n ts dead).length = ts.length := by
  induction ts generalizing dead with
  | nil => rfl
  | cons t ts ih =>
    simp only [runWorkers]
    split
    · simp [ih]
    · split <;> simp [ih]

theorem runWorkers_all_ok (n : Nat) {ts : List MsgInput}
    (h : ∀ t ∈ ts, ∃ v, dot_product t.row t.col = .ok v) :
    runWorkers n ts [] = ts.map (fun t => some (t.idx, dotVal t)) := by
  induction ts with
  | nil => rfl
  | cons t ts ih =>
    obtain ⟨v, hv⟩ := h t (List.mem_cons_self t ts)
    have hval : dotVal t = v := by simp [dotVal, hv]
    simp only [runWorkers, List.not_mem_nil, if_false, hv, List.map_cons, hval]
    exact congrArg _ (ih (fun u hu => h u (List.mem_cons_of_mem _ hu)))

theorem runWorkers_err {n : Nat} {ts : List MsgInput}
    (h : ∃ t ∈ ts, ∃ e, dot_product t.row t.col = .error e) (dead : List Nat)
    (d : List Int) :
    collect (runWorkers n ts dead) d = .error .channelClosed := by
  induction ts generalizing dead d with
  | nil => obtain ⟨t, ht, _⟩ := h; cases ht
  | cons t ts ih =>
    simp only [runWorkers]
    by_cases hd : t.idx % n ∈ dead
    · rw [if_pos hd]; rfl
    · rw [if_neg hd]
      cases hdot : dot_product t.row t.col with
      | error e => rfl
      | ok v =>
        obtain ⟨t0, ht0, e, he⟩ := h
        rcases List.mem_cons.mp ht0 with h1 | h1
        · rw [h1, hdot] at he; cases he
        · simpa [collect] using ih ⟨t0, h1, e, he⟩ dead (d.set t.idx v)

theorem runWorkers_all_some {n : Nat} {ts : List MsgInput} (dead : List Nat)
    (h : ∀ r ∈ runWorkers n ts dead, r.isSome) :
    ∀ t ∈ ts, ∃ v, dot_product t.row t.col = .ok v := by
  induction ts generalizing dead with
  | nil => intro t ht; cases ht
  | cons t ts ih =>
    intro t0 ht0
    by_cases hd : t.idx % n ∈ dead
    · have heq : runWorkers n (t :: ts) dead = none :: runWorkers n ts dead := by
        simp [runWorkers, if_pos hd]
      have := h none (heq ▸ List.mem_cons_self _ _)
      simp at this
    · cases hdot : dot_product t.row t.col with
      | error e =>
        have heq : runWorkers n (t :: ts) dead
            = none :: runWorkers n ts (t.idx % n :: dead) := by
          simp [runWorkers, if_neg hd, hdot]
        have := h none (heq ▸ List.mem_cons_self _ _)
        simp at this
      | ok v =>
        rcases List.mem_cons.mp ht0 with h1 | h1
        · exact ⟨v, h1 ▸ hdot⟩
        · have heq : runWorkers n (t :: ts) dead
              = some (t.idx, v) :: runWorkers n ts dead := by
            simp [runWorkers, if_neg hd, hdot]
          refine ih dead ?_ t0 h1
          intro r hr
          exact h r (heq ▸ List.mem_cons_of_mem _ hr)

theorem mkTask_idx {a b : Matrix} {i j : Nat} {t : MsgInput}
    (h : mkTask a b i j = some t) : t.idx = i * b.col + j := by
  unfold mkTask at h
  cases hr : rowSlice a i with
  | none => rw [hr] at h; cases h
  | some row =>
    rw [hr] at h
    cases hc : colSlice b j with
    | none => rw [hc] at h; cases h
    | some col =>
      rw [hc] at h
      cases h
      rfl

theorem tasksAux_cons {a b : Matrix} {p : Nat × Nat} {ps : List (Nat × Nat)}
    {ts : List MsgInput} (h : tasksAux a b (p :: ps) = some ts) :
    ∃ t ts0, mkTask a b p.1 p.2 = some t ∧ tasksAux a b ps = some ts0 ∧ ts = t :: ts0 := by
  unfold tasksAux at h
  cases hm : mkTask a b p.1 p.2 with
  | none => rw [hm] at h; cases h
  | some t =>
    rw [hm] at h
    cases ht : tasksAux a b ps with
    | none => rw [ht] at h; cases h
    | some ts0 =>
      rw [ht] at h
      cases h
      exact ⟨t, ts0, rfl, rfl, rfl⟩

theorem tasksAux_idx {a b : Matrix} {ps : List (Nat × Nat)} {ts : List MsgInput}
    (h : tasksAux a b ps = some ts) :
    ts.map (fun t => t.idx) = ps.map (fun p => p.1 * b.col + p.2) := by
  induction ps generalizing ts with
  | nil => cases h; rfl
  | cons p ps ih =>
    obtain ⟨t, ts0, hm, ht, rfl⟩ := tasksAux_cons h
    simp [mkTask_idx hm, ih ht]

theorem tasksAux_map {a b : Matrix} {ps : List (Nat × Nat)}
    (h : ∀ p ∈ ps, mkTask a b p.1 p.2 = some (taskOf a b p)) :
    tasksAux a b ps = some (ps.map (taskOf a b)) := by
  induction ps with
  | nil => rfl
  | cons p ps ih =>
    simp only [tasksAux, h p (List.mem_cons_self _ _),
      ih (fun q hq => h q (List.mem_cons_of_mem _ hq)), Option.bind_some, List.map_cons]
    rfl

theorem cellPairs_succ (r c : Nat) :
    cellPairs (r + 1) c = cellPairs r c ++ (List.range c).map (fun j => (r, j)) := by
  simp [cellPairs, List.range_succ]

theorem mem_cellPairs {r c : Nat} {p : Nat × Nat} :
    p ∈ cellPairs r c ↔ p.1 < r ∧ p.2 < c := by
  obtain ⟨i, j⟩ := p
  simp only [cellPairs, List.mem_flatMap, List.mem_map, List.mem_range]
  constructor
  · rintro ⟨i0, hi0, j0, hj0, heq⟩
    obtain ⟨rfl, rfl⟩ := Prod.mk.injEq .. ▸ heq
    exact ⟨hi0, hj0⟩
  · rintro ⟨hi, hj⟩
    exact ⟨i, hi, j, hj, rfl⟩

theorem cellPairs_idx (r c : Nat) :
    (cellPairs r c).map (fun p => p.1 * c + p.2) = List.range (r * c) := by
  induction r with
  | zero => simp [cellPairs]
  | succ r ih =>
    rw [cellPairs_succ, List.map_append, ih, Nat.succ_mul, List.range_add]
    congr 1
    simp [List.map_map, Function.comp_def, Nat.add_comm]

theorem idx_lt {i j r c : Nat} (hi : i < r) (hj : j < c) : i * c + j < r * c := by
  have h1 : i * c + j < (i + 1) * c := by rw [Nat.succ_mul]; omega
  exact Nat.lt_of_lt_of_le h1 (Nat.mul_le_mul_right c hi)

theorem rowSlice_eq {a : Matrix} (hlen : a.data.length = a.row * a.col) {i : Nat}
    (hi : i < a.row) : rowSlice a i = some (rowList a i) := by
  have hle : (i + 1) * a.col ≤ a.data.length := by
    rw [hlen]; exact Nat.mul_le_mul_right a.col hi
  have hdiff : (i + 1) * a.col - i * a.col = a.col := by
    rw [Nat.succ_mul]; omega
  unfold rowSlice sliceRange rowList
  rw [if_pos ⟨Nat.mul_le_mul_right a.col (Nat.le_succ i), hle⟩, hdiff]

theorem rowList_length {a : Matrix} (hlen : a.data.length = a.row * a.col) {i : Nat}
    (hi : i < a.row) : (rowList a i).length = a.col := by
  have hle : (i + 1) * a.col ≤ a.data.length := by
    rw [hlen]; exact Nat.mul_le_mul_right a.col hi
  rw [Nat.succ_mul] at hle
  unfold rowList
  rw [List.length_take, List.length_drop]
  omega

theorem rowList_getD {a : Matrix} {i t : Nat} (ht : t < a.col) :
    (rowList a i).getD t 0 = a.data.getD (i * a.col + t) 0 := by
  unfold rowList
  rw [List.getD_eq_getElem?_getD, List.getD_eq_getElem?_getD, List.getElem?_take,
    if_pos ht, List.getElem?_drop]

theorem stepByAux_skip (k : Nat) : ∀ (skip : Nat) (l : List Int),
    stepByAux k l skip = stepByAux k (l.drop skip) 0 := by
  intro skip
  induction skip with
  | zero => intro l; rw [List.drop_zero]
  | succ c ih =>
    intro l
    cases l with
    | nil => rfl
    | cons x xs =>
      rw [List.drop_succ_cons]
      exact ih xs

theorem stepBy_cons (k : Nat) (x : Int) (xs : List Int) :
    stepBy k (x :: xs) = x :: stepBy k (xs.drop (k - 1)) := by
  unfold stepBy
  show x :: stepByAux k xs (k - 1) = _
  rw [stepByAux_skip]

theorem stepBy_length {k : Nat} (hk : 1 ≤ k) (l : List Int) :
    (stepBy k l).length = (l.length + k - 1) / k := by
  suffices h : ∀ (n : Nat) (l : List Int), l.length ≤ n
      → (stepBy k l).length = (l.length + k - 1) / k from h l.length l (Nat.le_refl _)
  intro n
  induction n with
  | zero =>
    intro l hl
    have hnil : l = [] := List.length_eq_zero.mp (by omega)
    subst hnil
    simp [stepBy, stepByAux, Nat.div_eq_of_lt (by omega : k - 1 < k)]
  | succ n ih =>
    intro l hl
    cases l with
    | nil => simp [stepBy, stepByAux, Nat.div_eq_of_lt (by omega : k - 1 < k)]
    | cons x xs =>
      rw [stepBy_cons, List.length_cons,
        ih (xs.drop (k - 1)) (by simp only [List.length_drop, List.length_cons] at hl ⊢; omega),
        List.length_drop, List.length_cons]
      have h2 : xs.length + 1 + k - 1 = xs.length + k := by omega
      rw [h2, Nat.add_div_right _ (by omega : 0 < k)]
      rcases le_or_lt (k - 1) xs.length with hle | hlt
      · have h1 : xs.length - (k - 1) + k - 1 = xs.length := by omega
        rw [h1]
      · have h1 : xs.length - (k - 1) + k - 1 = k - 1 := by omega
        rw [h1, Nat.div_eq_of_lt (by omega : k - 1 < k),
          Nat.div_eq_of_lt (by omega : xs.length < k)]

theorem stepBy_getD {k : Nat} (hk : 1 ≤ k) (l : List Int) (t : Nat) :
    (stepBy k l).getD t 0 = l.getD (t * k) 0 := by
  suffices h : ∀ (n : Nat) (l : List Int), l.length ≤ n
      → ∀ t, (stepBy k l).getD t 0 = l.getD (t * k) 0 from h l.length l (Nat.le_refl _) t
  intro n
  induction n with
  | zero =>
    intro l hl t
    have hnil : l = [] := List.length_eq_zero.mp (by omega)
    subst hnil
    simp [stepBy, stepByAux]
  | succ n ih =>
    intro l hl t
    cases l with
    | nil => simp [stepBy, stepByAux]
    | cons x xs =>
      rw [stepBy_cons]
      cases t with
      | zero => simp
      | succ t =>
        have h1 : (t + 1) * k = (t * k + (k - 1)) + 1 := by
          rw [Nat.succ_mul]; omega
        simp only [List.getD_cons_succ]
        rw [ih (xs.drop (k - 1))
            (by simp only [List.length_drop, List.length_cons] at hl ⊢; omega) t,
          getD_drop, h1]
        simp only [List.getD_cons_succ]
        rw [Nat.add_comm (k - 1) (t * k)]

theorem colSlice_eq {b : Matrix} {j : Nat} (hj : j ≤ b.data.length) :
    colSlice b j = some (colList b j) := by
  unfold colSlice sliceFrom colList
  rw [if_pos hj]
  rfl

theorem colList_length {b : Matrix} (hlen : b.data.length = b.row * b.col) {j : Nat}
    (hj : j < b.col) : (colList b j).length = b.row := by
  have hc : 1 ≤ b.col := by omega
  unfold colList
  rw [stepBy_length hc, List.length_drop, hlen]
  rcases Nat.eq_zero_or_pos b.row with h0 | hpos
  · rw [h0, Nat.zero_mul]
    rw [Nat.div_eq_of_lt (by omega)]
  · have hcc : b.col ≤ b.row * b.col := Nat.le_mul_of_pos_left b.col hpos
    have heq : b.row * b.col - j + b.col - 1 = (b.col - 1 - j) + b.col * b.row := by
      rw [Nat.mul_comm b.col b.row]
      omega
    rw [heq, Nat.add_mul_div_left _ _ (by omega : 0 < b.col),
      Nat.div_eq_of_lt (by omega), Nat.zero_add]

theorem colList_getD {b : Matrix} (hc : 1 ≤ b.col) {j t : Nat} :
    (colList b j).getD t 0 = b.data.getD (t * b.col + j) 0 := by
  unfold colList
  rw [stepBy_getD hc, getD_drop, Nat.add_comm j (t * b.col)]

theorem dot_product_ok {a b : List Int} (h : a.length = b.length) :
    dot_product a b
      = .ok ((List.range a.length).foldl (fun sum i => sum + a.getD i 0 * b.getD i 0) 0) := by
  unfold dot_product
  rw [if_neg (by omega)]

theorem foldl_range_congr {n : Nat} (f g : Nat → Int)
    (h : ∀ t < n, f t = g t) (init : Int) :
    (List.range n).foldl (fun s t => s + f t) init
      = (List.range n).foldl (fun s t => s + g t) init := by
  induction n generalizing init with
  | zero => rfl
  | succ n ih =>
    rw [List.range_succ, List.foldl_append, List.foldl_append]
    simp only [List.foldl_cons, List.foldl_nil]
    rw [ih (fun t ht => h t (Nat.lt_succ_of_lt ht)) init, h n (Nat.lt_succ_self n)]

theorem task_dot {a b : Matrix} (ha : a.data.length = a.row * a.col)
    (hb : b.data.length = b.row * b.col) (hk : a.col = b.row)
    {i j : Nat} (hi : i < a.row) (hj : j < b.col) :
    dot_product (rowList a i) (colList b j) = .ok (refEntry a b i j) := by
  have hc : 1 ≤ b.col := by omega
  have hrl := rowList_length ha hi
  have hcl := colList_length hb hj
  have hlen : (rowList a i).length = (colList b j).length := by rw [hrl, hcl, hk]
  rw [dot_product_ok hlen, hrl]
  congr 1
  unfold refEntry
  exact foldl_range_congr
    (fun t => (rowList a i).getD t 0 * (colList b j).getD t 0)
    (fun t => a.data.getD (i * a.col + t) 0 * b.data.getD (t * b.col + j) 0)
    (fun t ht => by simp only [rowList_getD ht, colList_getD hc]) 0

theorem mkTask_eq {a b : Matrix} (ha : a.data.length = a.row * a.col)
    (hb : b.data.length = b.row * b.col) (hcase : 1 ≤ b.row ∨ b.col ≤ 1)
    {i j : Nat} (hi : i < a.row) (hj : j < b.col) :
    mkTask a b i j = some (taskOf a b (i, j)) := by
  have hjle : j ≤ b.data.length := by
    rcases hcase with h1 | h1
    · rw [hb]
      have := Nat.le_mul_of_pos_left b.col h1
      omega
    · omega
  unfold mkTask
  rw [rowSlice_eq ha hi, colSlice_eq hjle]
  rfl

theorem tasks_eq {a b : Matrix} (ha : a.data.length = a.row * a.col)
    (hb : b.data.length = b.row * b.col)
    (hcase : 1 ≤ b.row ∨ b.col ≤ 1 ∨ a.row = 0) :
    tasks a b = some ((cellPairs a.row b.col).map (taskOf a b)) := by
  unfold tasks
  apply tasksAux_map
  intro p hp
  obtain ⟨h1, h2⟩ := mem_cellPairs.mp hp
  rcases hcase with hc | hc | hc
  · exact mkTask_eq ha hb (Or.inl hc) h1 h2
  · exact mkTask_eq ha hb (Or.inr hc) h1 h2
  · omega

theorem tasks_idx {a b : Matrix} {ts : List MsgInput} (h : tasks a b = some ts) :
    ts.map (fun t => t.idx) = List.range (a.row * b.col) := by
  unfold tasks at h
  rw [tasksAux_idx h, cellPairs_idx]

theorem multiply_ok_master {a b : Matrix} (n : Nat)
    (ha : a.data.length = a.row * a.col) (hb : b.data.length = b.row * b.col)
    (hk : a.col = b.row) (hcase : 1 ≤ a.col ∨ b.col ≤ 1 ∨ a.row = 0) :
    ∃ m : Matrix, multiplyN a b n = some (.ok m) ∧ m.row = a.row ∧ m.col = b.col
      ∧ m.data.length = a.row * b.col
      ∧ ∀ i j, i < a.row → j < b.col →
          m.data.getD (i * b.col + j) 0 = refEntry a b i j := by
  have hcase2 : 1 ≤ b.row ∨ b.col ≤ 1 ∨ a.row = 0 := by
    rcases hcase with h | h | h
    · exact Or.inl (by omega)
    · exact Or.inr (Or.inl h)
    · exact Or.inr (Or.inr h)
  have hts := tasks_eq ha hb hcase2
  set ts := (cellPairs a.row b.col).map (taskOf a b) with hts_def
  have hdot : ∀ t ∈ ts, ∃ v, dot_product t.row t.col = .ok v := by
    intro t ht
    obtain ⟨p, hp, rfl⟩ := List.mem_map.mp ht
    obtain ⟨h1, h2⟩ := mem_cellPairs.mp hp
    exact ⟨refEntry a b p.1 p.2, task_dot ha hb hk h1 h2⟩
  have hval : ∀ p ∈ cellPairs a.row b.col, dotVal (taskOf a b p) = refEntry a b p.1 p.2 := by
    intro p hp
    obtain ⟨h1, h2⟩ := mem_cellPairs.mp hp
    simp [dotVal, task_dot ha hb hk h1 h2, taskOf]
  have hrw := runWorkers_all_ok n hdot
  set ps := ts.map (fun t => (t.idx, dotVal t)) with hps_def
  have hmapsome : ts.map (fun t => some (t.idx, dotVal t)) = ps.map some := by
    simp [hps_def, List.map_map]
  set init := List.replicate (a.row * b.col) (0 : Int) with hinit_def
  have hcoll : collect (runWorkers n ts []) init
      = .ok (ps.foldl (fun acc p => acc.set p.1 p.2) init) := by
    rw [hrw, hmapsome, collect_map_some]
  have hfst : ps.map Prod.fst = List.range (a.row * b.col) := by
    rw [hps_def, List.map_map]
    exact tasks_idx hts
  have hmul : multiplyN a b n
      = some (.ok (⟨ps.foldl (fun acc p => acc.set p.1 p.2) init, a.row, b.col⟩ : Matrix)) := by
    unfold multiplyN
    rw [if_neg (by omega), hts]
    simp only [hcoll, Except.map]
  refine ⟨_, hmul, rfl, rfl, ?_, ?_⟩
  · rw [foldl_set_length, hinit_def, List.length_replicate]
  · intro i j hi hj
    have hmem : (i * b.col + j, refEntry a b i j) ∈ ps := by
      rw [hps_def]
      refine List.mem_map.mpr ⟨taskOf a b (i, j), ?_, ?_⟩
      · exact List.mem_map.mpr ⟨(i, j), mem_cellPairs.mpr ⟨hi, hj⟩, rfl⟩
      · rw [hval (i, j) (mem_cellPairs.mpr ⟨hi, hj⟩)]
        rfl
    have hnd : (ps.map Prod.fst).Nodup := by
      rw [hfst]; exact List.nodup_range (a.row * b.col)
    have hk2 : i * b.col + j < init.length := by
      rw [hinit_def, List.length_replicate]
      exact idx_lt hi hj
    exact foldl_set_getD_mem hmem hnd hk2

theorem dot_fold_zip (a : List Int) :
    ∀ (b : List Int), a.length = b.length → ∀ init : Int,
      (List.range a.length).foldl (fun sum i => sum + a.getD i 0 * b.getD i 0) init
        = (List.zipWith (fun x y => x * y) a b).foldl (fun sum x => sum + x) init := by
  induction a with
  | nil =>
    intro b h init
    cases b with
    | nil => rfl
    | cons y ys => simp at h
  | cons x xs ih =>
    intro b h init
    cases b with
    | nil => simp at h
    | cons y ys =>
      simp only [List.length_cons, List.range_succ_eq_map, List.foldl_cons, List.foldl_map,
        List.getD_cons_zero, List.getD_cons_succ, List.zipWith_cons_cons]
      exact ih ys (by simpa using h) (init + x * y)

theorem foldl_range_congr_str {n : Nat} (f g : String → Nat → String)
    (h : ∀ s : String, ∀ t < n, f s t = g s t) (init : String) :
    (List.range n).foldl f init = (List.range n).foldl g init := by
  induction n generalizing init with
  | zero => rfl
  | succ n ih =>
    rw [List.range_succ, List.foldl_append, List.foldl_append]
    simp only [List.foldl_cons, List.foldl_nil]
    rw [ih (fun s t ht => h s t (Nat.lt_succ_of_lt ht)) init, h _ n (Nat.lt_succ_self n)]

theorem joinSep_cons (sep x : String) {l : List String} (hl : l ≠ []) :
    joinSep sep (x :: l) = x ++ sep ++ joinSep sep l := by
  cases l with
  | nil => cases hl rfl
  | cons y ys => rfl

theorem foldl_joinSep (sep : String) :
    ∀ (n : Nat) (e : Nat → String) (acc : String),
      (List.range n).foldl (fun s j => s ++ e j ++ if j ≠ n - 1 then sep else "") acc
        = acc ++ joinSep sep ((List.range n).map e) := by
  intro n
  induction n with
  | zero =>
    intro e acc
    simp [joinSep]
  | succ n ih =>
    intro e acc
    rw [List.range_succ_eq_map, List.foldl_cons, List.foldl_map, List.map_cons,
      List.map_map]
    cases n with
    | zero =>
      simp [joinSep, String.append_empty]
    | succ m =>
      have hstep : (List.range (m + 1)).foldl
          (fun (s : String) (j : Nat) =>
            s ++ e j.succ ++ if j.succ ≠ m + 1 + 1 - 1 then sep else "")
          (acc ++ e 0 ++ if (0 : Nat) ≠ m + 1 + 1 - 1 then sep else "")
          = (List.range (m + 1)).foldl
            (fun (s : String) (j : Nat) =>
              s ++ (e ∘ Nat.succ) j ++ if j ≠ m + 1 - 1 then sep else "")
            (acc ++ e 0 ++ sep) := by
        have hacc : (acc ++ e 0 ++ if (0 : Nat) ≠ m + 1 + 1 - 1 then sep else "")
            = acc ++ e 0 ++ sep := by
          rw [if_pos (by omega)]
        rw [hacc]
        apply foldl_range_congr_str
        intro s t ht
        simp only [Function.comp_apply]
        congr 1
        exact if_congr (by omega) rfl rfl
      rw [hstep, ih (e ∘ Nat.succ) (acc ++ e 0 ++ sep),
        joinSep_cons sep (e 0)
          (by simp [List.map_eq_nil_iff, List.range_eq_nil] :
            (List.range (m + 1)).map (e ∘ Nat.succ) ≠ [])]
      simp [String.append_assoc]

theorem foldlM_eq_foldl {l : List Nat} {F : String → Nat → Option String}
    {G : String → Nat → String} (h : ∀ s : String, ∀ j ∈ l, F s j = some (G s j))
    (acc : String) : l.foldlM F acc = some (l.foldl G acc) := by
  induction l generalizing acc with
  | nil => rfl
  | cons x l ih =>
    rw [List.foldlM_cons, h acc x (List.mem_cons_self _ _)]
    simp only [Option.bind_eq_bind, Option.some_bind]
    exact ih (fun s j hj => h s j (List.mem_cons_of_mem _ hj)) (G acc x)

theorem displayBody_eq {m : Matrix} (hlen : m.data.length = m.row * m.col) :
    displayBody m = some ((List.range m.row).foldl
      (fun acc i => acc ++ specRowStr m i ++ if i ≠ m.row - 1 then ", " else "") "") := by
  unfold displayBody
  apply foldlM_eq_foldl ?_ ""
  intro s i hi
  rw [List.mem_range] at hi
  have hinner : (List.range m.col).foldlM
      (fun acc2 j => do
        let x ← m.data[i * m.col + j]?
        pure (acc2 ++ toString x ++ if j ≠ m.col - 1 then " " else "")) s
      = some ((List.range m.col).foldl
        (fun acc2 j => acc2 ++ toString (m.data.getD (i * m.col + j) 0)
          ++ if j ≠ m.col - 1 then " " else "") s) := by
    apply foldlM_eq_foldl ?_ s
    intro s2 j hj
    rw [List.mem_range] at hj
    have hidx : i * m.col + j < m.data.length := by
      rw [hlen]; exact idx_lt hi hj
    rw [List.getElem?_eq_getElem hidx]
    simp only [Option.bind_eq_bind, Option.some_bind, List.getD_eq_getElem?_getD,
      List.getElem?_eq_getElem hidx, Option.getD_some]
    rfl
  simp only [Option.bind_eq_bind] at hinner ⊢
  rw [hinner, Option.some_bind,
    foldl_joinSep " " m.col (fun j => toString (m.data.getD (i * m.col + j) 0)) s]
  rfl

theorem display_eq_spec {m : Matrix} (hlen : m.data.length = m.row * m.col) :
    displayM m = some (specDisplay m) := by
  unfold displayM specDisplay
  rw [displayBody_eq hlen, foldl_joinSep ", " m.row (specRowStr m) "",
    String.empty_append]
  rfl

theorem debug_eq_spec {m : Matrix} (hlen : m.data.length = m.row * m.col) :
    debugM m = some (specDebug m) := by
  unfold debugM specDebug
  rw [display_eq_spec hlen]
  rfl

theorem multiplyN_ok_inv {a b : Matrix} {n : Nat} {m : Matrix}
    (h : multiplyN a b n = some (.ok m)) :
    a.col = b.row ∧ ∃ ts, tasks a b = some ts
      ∧ collect (runWorkers n ts []) (List.replicate (a.row * b.col) 0) = .ok m.data := by
  unfold multiplyN at h
  by_cases hshape : a.col ≠ b.row
  · rw [if_pos hshape] at h
    simp at h
  · rw [if_neg hshape] at h
    refine ⟨by omega, ?_⟩
    cases hts : tasks a b with
    | none => rw [hts] at h; cases h
    | some ts =>
      rw [hts] at h
      simp only [] at h
      refine ⟨ts, rfl, ?_⟩
      cases hc : collect (runWorkers n ts []) (List.replicate (a.row * b.col) 0) with
      | error e => rw [hc] at h; simp [Except.map] at h
      | ok d =>
        rw [hc] at h
        simp only [Except.map, Option.some.injEq, Except.ok.injEq] at h
        rw [← h]

/-! ### Claim theorems -/

/-- Claim C1, counterexample: the claim fails on the degenerate compatible
shapes 1×0 times 0×2.  Both matrices are well formed and the inner dimensions
agree (both 0), yet `multiply` does not succeed: the scheduler's column
slicing `b.data[1..]` panics on the empty data of `b` (modelled as `none`),
so no product matrix of shape (1, 2) is returned. -/
theorem c1_multiply_counterexample :
    (Matrix.new [] 1 0).data.length = 1 * 0
      ∧ (Matrix.new [] 0 2).data.length = 0 * 2
      ∧ (Matrix.new [] 1 0).col = (Matrix.new [] 0 2).row
      ∧ multiply (Matrix.new [] 1 0) (Matrix.new [] 0 2) = none :=
  ⟨rfl, rfl, rfl, rfl⟩

/-- Claim C1 (amended): for all well-formed matrices A (r×k) and B (k×c) with
compatible inner dimension, and outside the panicking corner k = 0 with r ≥ 1
and c ≥ 2 (where the column slicing `b.data[j..]` panics), `multiply`
succeeds and returns a matrix of shape (r, c) whose every cell (i, j) is the
reference triple-nested-loop product entry `Σ_t A[i][t] * B[t][j]`. -/
theorem c1_multiply_correct (a b : Matrix)
    (ha : a.data.length = a.row * a.col) (hb : b.data.length = b.row * b.col)
    (hk : a.col = b.row) (hdeg : 1 ≤ a.col ∨ b.col ≤ 1 ∨ a.row = 0) :
    ∃ m : Matrix, multiply a b = some (.ok m) ∧ m.row = a.row ∧ m.col = b.col
      ∧ m.data.length = a.row * b.col
      ∧ ∀ i j, i < a.row → j < b.col →
          m.data.getD (i * b.col + j) 0 = refEntry a b i j :=
  multiply_ok_master NUM_THREADS ha hb hk hdeg

/-- Witness for C1 on the spec's concrete scenario 1:
A = [[1,2,3],[4,5,6]], B = [[1,2],[3,4],[5,6]]. -/
theorem c1_multiply_correct_witness :
    ((Matrix.new [1, 2, 3, 4, 5, 6] 2 3).data.length = 2 * 3
      ∧ (Matrix.new [1, 2, 3, 4, 5, 6] 3 2).data.length = 3 * 2
      ∧ (Matrix.new [1, 2, 3, 4, 5, 6] 2 3).col = (Matrix.new [1, 2, 3, 4, 5, 6] 3 2).row
      ∧ 1 ≤ (Matrix.new [1, 2, 3, 4, 5, 6] 2 3).col)
    ∧ ∃ m : Matrix,
        multiply (Matrix.new [1, 2, 3, 4, 5, 6] 2 3) (Matrix.new [1, 2, 3, 4, 5, 6] 3 2)
          = some (.ok m)
        ∧ m.row = 2 ∧ m.col = 2 ∧ m.data.length = 2 * 2
        ∧ ∀ i j, i < 2 → j < 2 →
            m.data.getD (i * 2 + j) 0
              = refEntry (Matrix.new [1, 2, 3, 4, 5, 6] 2 3)
                  (Matrix.new [1, 2, 3, 4, 5, 6] 3 2) i j :=
  ⟨⟨rfl, rfl, rfl, by decide⟩,
    c1_multiply_correct _ _ rfl rfl rfl (Or.inl (by decide))⟩

/-- Claim C2: whenever `a.col ≠ b.row`, `multiply` fails with the
shape-mismatch error, for every worker count; in the model the first `if` of
`multiplyN` returns before tasks are built or workers run, mirroring the
source's early `return Err(...)` before `thread::spawn`. -/
theorem c2_shape_mismatch (a b : Matrix) (n : Nat) (h : a.col ≠ b.row) :
    multiplyN a b n = some (.error .shapeMismatch) := by
  unfold multiplyN
  rw [if_pos h]

/-- Witness for C2 on the spec's concrete scenario 2 (A 2×3, B 2×2); note
the error is returned even though not all of B's columns could be sliced. -/
theorem c2_shape_mismatch_witness :
    (Matrix.new [1, 2, 3, 4, 5, 6] 2 3).col ≠ (Matrix.new [1, 2, 3, 4] 2 2).row
    ∧ multiplyN (Matrix.new [1, 2, 3, 4, 5, 6] 2 3) (Matrix.new [1, 2, 3, 4] 2 2)
        NUM_THREADS = some (.error .shapeMismatch) :=
  ⟨by decide, c2_shape_mismatch _ _ NUM_THREADS (by decide)⟩

/-- Claim C3: `dot_product` fails with the length-mismatch error exactly when
the lengths differ, and otherwise returns the left-to-right fold of the
pairwise products seeded with the additive identity `0` (`T::default()`). -/
theorem c3_dot_product_spec (a b : List Int) :
    dot_product a b
      = if a.length = b.length
        then .ok ((List.zipWith (fun x y => x * y) a b).foldl (fun sum x => sum + x) 0)
        else .error .lengthMismatch := by
  by_cases h : a.length = b.length
  · rw [if_pos h, dot_product_ok h, dot_fold_zip a b h 0]
  · rw [if_neg h]
    unfold dot_product
    rw [if_pos h]

/-- Claim C4: when `multiplyN` succeeds with worker count n ≥ 1, the reply
slots of the call are all filled, and their `(index, value)` write set hits
each output index in `[0, r*c)` exactly once (a bijection onto the output
buffer): no cell stays unwritten, none is written twice. -/
theorem c4_writes_bijection (a b : Matrix) (n : Nat) (m : Matrix) (hn : 1 ≤ n)
    (h : multiplyN a b n = some (.ok m)) :
    ∃ ps : List (Nat × Int), writeOps a b n = some (ps.map some)
      ∧ (ps.map Prod.fst).Perm (List.range (a.row * b.col))
      ∧ (ps.map Prod.fst).Nodup := by
  obtain ⟨hk, ts, hts, hcoll⟩ := multiplyN_ok_inv h
  have hall := collect_ok_all_some hcoll
  have hok := runWorkers_all_some [] hall
  have hrw := runWorkers_all_ok n hok
  have hfst : (ts.map (fun t => (t.idx, dotVal t))).map Prod.fst
      = List.range (a.row * b.col) := by
    rw [List.map_map]
    exact tasks_idx hts
  refine ⟨ts.map (fun t => (t.idx, dotVal t)), ?_, ?_, ?_⟩
  · unfold writeOps
    rw [hts]
    simp [hrw, List.map_map]
  · rw [hfst]
  · rw [hfst]
    exact List.nodup_range _

/-- Witness for C4 on the spec's concrete scenario 1 with the source's four
workers. -/
theorem c4_writes_bijection_witness :
    ((1 : Nat) ≤ NUM_THREADS
      ∧ multiplyN (Matrix.new [1, 2, 3, 4, 5, 6] 2 3) (Matrix.new [1, 2, 3, 4, 5, 6] 3 2)
          NUM_THREADS = some (.ok (Matrix.mk [22, 28, 49, 64] 2 2)))
    ∧ ∃ ps : List (Nat × Int),
        writeOps (Matrix.new [1, 2, 3, 4, 5, 6] 2 3) (Matrix.new [1, 2, 3, 4, 5, 6] 3 2)
          NUM_THREADS = some (ps.map some)
        ∧ (ps.map Prod.fst).Perm (List.range (2 * 2))
        ∧ (ps.map Prod.fst).Nodup :=
  ⟨⟨by decide, rfl⟩, c4_writes_bijection _ _ _ _ (by decide) rfl⟩

/-- Claim C5, counterexample: on A = [[1,2,3],[4,5,6]] (2×3) and a malformed
B (declared 3×2 but carrying only 4 elements), every task's `dot_product`
fails; the workers terminate WITHOUT sending any reply — all four reply
slots are `none`, there is no tagged failure reply (the reply type
`MsgOutput` carries no error variant at all) — and the scheduler observes
the generic closed-channel error, contradicting the claim that an explicit
error reply is received instead. -/
theorem c5_no_failure_reply_counterexample :
    writeOps (Matrix.new [1, 2, 3, 4, 5, 6] 2 3) (Matrix.new [1, 2, 3, 4] 3 2)
        NUM_THREADS = some [none, none, none, none]
    ∧ multiply (Matrix.new [1, 2, 3, 4, 5, 6] 2 3) (Matrix.new [1, 2, 3, 4] 3 2)
        = some (.error .channelClosed) :=
  ⟨rfl, rfl⟩

/-- Claim C5 (amended): when some task's `dot_product` fails inside a worker,
the worker terminates without sending a reply (the `?` in the worker loop
propagates the error out of the thread closure), so the scheduler's receive
finds the reply channel closed and the whole `multiply` fails with the
channel-closed error — not with a tagged failure reply. -/
theorem c5_worker_error_closes_channel (a b : Matrix) (n : Nat) (ts : List MsgInput)
    (hk : a.col = b.row) (hts : tasks a b = some ts)
    (herr : ∃ t ∈ ts, ∃ e, dot_product t.row t.col = .error e) :
    multiplyN a b n = some (.error .channelClosed) := by
  unfold multiplyN
  rw [if_neg (by omega), hts]
  simp only []
  rw [runWorkers_err herr [] (List.replicate (a.row * b.col) 0)]
  rfl

/-- Witness for the amended C5: the malformed-B scenario, with the failing
first task exhibited explicitly. -/
theorem c5_worker_error_closes_channel_witness :
    ((Matrix.new [1, 2, 3, 4, 5, 6] 2 3).col = (Matrix.new [1, 2, 3, 4] 3 2).row
      ∧ tasks (Matrix.new [1, 2, 3, 4, 5, 6] 2 3) (Matrix.new [1, 2, 3, 4] 3 2)
          = some [⟨0, [1, 2, 3], [1, 3]⟩, ⟨1, [1, 2, 3], [2, 4]⟩,
              ⟨2, [4, 5, 6], [1, 3]⟩, ⟨3, [4, 5, 6], [2, 4]⟩]
      ∧ dot_product [1, 2, 3] [1, 3] = .error .lengthMismatch)
    ∧ multiplyN (Matrix.new [1, 2, 3, 4, 5, 6] 2 3) (Matrix.new [1, 2, 3, 4] 3 2)
        NUM_THREADS = some (.error .channelClosed) :=
  ⟨⟨rfl, rfl, rfl⟩,
    c5_worker_error_closes_channel _ _ NUM_THREADS _ rfl rfl
      ⟨⟨0, [1, 2, 3], [1, 3]⟩, by decide, .lengthMismatch, rfl⟩⟩

/-- Claim C6: if any task's reply slot is empty (`none` — the task was routed
to a worker that had already terminated, so its send failed and was only
logged, or its own computation died), the collection loop's receive fails
with the channel-closed error and the whole `multiply` returns an error; no
partially filled matrix is returned.  Submission still runs to completion: a
reply slot exists for every task. -/
theorem c6_undelivered_task_aborts (a b : Matrix) (n : Nat)
    (rs : List (Option (Nat × Int))) (hk : a.col = b.row)
    (hrs : writeOps a b n = some rs) (hnone : none ∈ rs) :
    multiplyN a b n = some (.error .channelClosed)
      ∧ ∀ ts, tasks a b = some ts → rs.length = ts.length := by
  unfold writeOps at hrs
  cases hts : tasks a b with
  | none => rw [hts] at hrs; cases hrs
  | some ts0 =>
    rw [hts] at hrs
    have hrs2 : runWorkers n ts0 [] = rs := by simpa using hrs
    constructor
    · unfold multiplyN
      rw [if_neg (by omega), hts]
      simp only []
      rw [collect_mem_none (hrs2.symm ▸ hnone) (List.replicate (a.row * b.col) 0)]
      rfl
    · intro ts hts2
      cases Option.some.inj hts2
      rw [← hrs2]
      exact runWorkers_length n ts0 []

/-- Witness for C6: with a single worker, A = [[1,2],[3,4]] and a malformed
B (declared 2×2, data [1,2,3]), the first task succeeds, the second kills
worker 0, and the remaining two tasks can no longer be delivered to it —
their reply slots are `none` and multiply aborts with the channel error. -/
theorem c6_undelivered_task_aborts_witness :
    ((Matrix.new [1, 2, 3, 4] 2 2).col = (Matrix.new [1, 2, 3] 2 2).row
      ∧ writeOps (Matrix.new [1, 2, 3, 4] 2 2) (Matrix.new [1, 2, 3] 2 2) 1
          = some [some (0, 7), none, none, none]
      ∧ (none : Option (Nat × Int)) ∈ [some ((0 : Nat), (7 : Int)), none, none, none])
    ∧ multiplyN (Matrix.new [1, 2, 3, 4] 2 2) (Matrix.new [1, 2, 3] 2 2) 1
        = some (.error .channelClosed) :=
  ⟨⟨rfl, rfl, by decide⟩,
    (c6_undelivered_task_aborts (Matrix.new [1, 2, 3, 4] 2 2) (Matrix.new [1, 2, 3] 2 2)
      1 [some (0, 7), none, none, none] rfl rfl (by decide)).1⟩

/-- Claim C7: `multiplyN` is a mathematical function of its arguments, so two
calls on the same inputs with the same worker count are identical; the model
proves the stronger fact that the result does not depend on the worker count
at all (each cell's dot product is computed wholly within one worker in a
fixed left-to-right fold, and placed by its index tag). -/
theorem c7_deterministic (a b : Matrix) (n1 n2 : Nat) :
    multiplyN a b n1 = multiplyN a b n2 := by
  unfold multiplyN
  by_cases hshape : a.col ≠ b.row
  · rw [if_pos hshape, if_pos hshape]
  · rw [if_neg hshape, if_neg hshape]
    cases hts : tasks a b with
    | none => rfl
    | some ts =>
      simp only []
      by_cases hall : ∀ t ∈ ts, ∃ v, dot_product t.row t.col = .ok v
      · rw [runWorkers_all_ok n1 hall, runWorkers_all_ok n2 hall]
      · push_neg at hall
        obtain ⟨t, ht, hv⟩ := hall
        have herr : ∃ t ∈ ts, ∃ e, dot_product t.row t.col = .error e := by
          refine ⟨t, ht, ?_⟩
          cases hdot : dot_product t.row t.col with
          | ok v => exact absurd hdot (hv v)
          | error e => exact ⟨e, rfl⟩
        rw [runWorkers_err herr [] (List.replicate (a.row * b.col) 0),
          runWorkers_err herr [] (List.replicate (a.row * b.col) 0)]

/-- Claim C8: the `Mul` operator is `multiply` with failure converted into a
panic (`expect`): on success it returns the same matrix; on error it aborts
(`none` in the model) instead of returning. -/
theorem c8_mul_operator (a b : Matrix) :
    (∀ m : Matrix, multiply a b = some (.ok m) → mulOp a b = some m)
      ∧ ∀ e : MErr, multiply a b = some (.error e) → mulOp a b = none := by
  constructor
  · intro m h
    unfold mulOp
    rw [h]
  · intro e h
    unfold mulOp
    rw [h]

/-- Witness for C8: scenario 1 (success: the operator returns the product)
and scenario 2 (shape mismatch: the operator aborts). -/
theorem c8_mul_operator_witness :
    (multiply (Matrix.new [1, 2, 3, 4, 5, 6] 2 3) (Matrix.new [1, 2, 3, 4, 5, 6] 3 2)
        = some (.ok (Matrix.mk [22, 28, 49, 64] 2 2))
      ∧ mulOp (Matrix.new [1, 2, 3, 4, 5, 6] 2 3) (Matrix.new [1, 2, 3, 4, 5, 6] 3 2)
        = some (Matrix.mk [22, 28, 49, 64] 2 2))
    ∧ (multiply (Matrix.new [1, 2, 3, 4, 5, 6] 2 3) (Matrix.new [1, 2, 3, 4] 2 2)
        = some (.error .shapeMismatch)
      ∧ mulOp (Matrix.new [1, 2, 3, 4, 5, 6] 2 3) (Matrix.new [1, 2, 3, 4] 2 2) = none) :=
  ⟨⟨rfl,
      (c8_mul_operator (Matrix.new [1, 2, 3, 4, 5, 6] 2 3)
        (Matrix.new [1, 2, 3, 4, 5, 6] 3 2)).1 (Matrix.mk [22, 28, 49, 64] 2 2) rfl⟩,
    ⟨rfl,
      (c8_mul_operator (Matrix.new [1, 2, 3, 4, 5, 6] 2 3)
        (Matrix.new [1, 2, 3, 4] 2 2)).2 .shapeMismatch rfl⟩⟩

/-- Claim C9: for every matrix satisfying the data-length invariant, the
`Display` loop renders exactly the brace-delimited, space-joined-per-row,
comma-space-joined-across-rows format described by the spec, and `Debug`
renders exactly `Matrix(row=<R>, col=<C>, <Display output>)`. -/
theorem c9_display_debug (m : Matrix) (hlen : m.data.length = m.row * m.col) :
    displayM m = some (specDisplay m) ∧ debugM m = some (specDebug m) :=
  ⟨display_eq_spec hlen, debug_eq_spec hlen⟩

/-- Witness for C9 on the product of scenario 1, whose expected renderings
are fixed by the spec's concrete strings. -/
theorem c9_display_debug_witness :
    ((Matrix.new [22, 28, 49, 64] 2 2).data.length = 2 * 2
      ∧ specDisplay (Matrix.new [22, 28, 49, 64] 2 2) = "\x7b22 28, 49 64\x7d"
      ∧ specDebug (Matrix.new [22, 28, 49, 64] 2 2)
          = "Matrix(row=2, col=2, \x7b22 28, 49 64\x7d)")
    ∧ displayM (Matrix.new [22, 28, 49, 64] 2 2)
        = some (specDisplay (Matrix.new [22, 28, 49, 64] 2 2))
      ∧ debugM (Matrix.new [22, 28, 49, 64] 2 2)
        = some (specDebug (Matrix.new [22, 28, 49, 64] 2 2)) :=
  ⟨⟨rfl, rfl, rfl⟩, c9_display_debug _ rfl⟩

/-- Claim C10: `Matrix::new` accepts every combination of data, row and col
verbatim — no validation, no assertion — so the invariant
`data.len() == row*col` is not established at construction, and rendering a
matrix built with too little data panics on out-of-bounds indexing (the
model's `none`). -/
theorem c10_new_unvalidated :
    (∀ (d : List Int) (r c : Nat), (Matrix.new d r c).data = d
      ∧ (Matrix.new d r c).row = r ∧ (Matrix.new d r c).col = c)
    ∧ displayM (Matrix.new [1] 2 2) = none :=
  ⟨fun _ _ _ => ⟨rfl, rfl, rfl⟩, rfl⟩

end Conc
